import Mathlib

/-!
Shallow embedding of the money-affecting core of the `poly` trading agent:
the paper-trading ledger (`agent/bot/execution/paper_ledger.py`), the GTC
order tracker (`agent/bot/execution/order_tracker.py`), the paper execution
layer (`agent/bot/execution/paper_exec.py`), the Kelly position sizer
(`agent/bot/risk/kelly_criterion.py`) and the circuit breaker
(`agent/bot/risk/circuit_breaker.py`).

Python floats are modelled as rationals; `round(x, n)` is modelled exactly
as round-half-even at `n` decimal digits.  Python dicts that the ledger
keeps (`positions`, `_reserved`) are modelled as association lists with the
dict's lookup/set/pop semantics.
-/

namespace Poly

/-! ### Python round: round-half-even -/

/-- Round-half-even of a rational to an integer — the rounding mode Python's
built-in `round` uses. -/
def rndInt (x : ℚ) : ℤ :=
  if x - ⌊x⌋ < 1/2 then ⌊x⌋
  else if 1/2 < x - ⌊x⌋ then ⌊x⌋ + 1
  else if ⌊x⌋ % 2 = 0 then ⌊x⌋ else ⌊x⌋ + 1

/-- Python `round(x, n)` on exact rationals. -/
def pyRound (n : ℕ) (x : ℚ) : ℚ := (rndInt (x * 10 ^ n) : ℚ) / 10 ^ n

theorem rndInt_ge (x : ℚ) : x - 1/2 ≤ (rndInt x : ℚ) := by
  unfold rndInt
  have h1 : (⌊x⌋ : ℚ) ≤ x := Int.floor_le x
  have h2 : x < ⌊x⌋ + 1 := Int.lt_floor_add_one x
  split_ifs with ha hb hc <;> push_cast <;> linarith

theorem rndInt_le (x : ℚ) : (rndInt x : ℚ) ≤ x + 1/2 := by
  unfold rndInt
  have h1 : (⌊x⌋ : ℚ) ≤ x := Int.floor_le x
  have h2 : x < ⌊x⌋ + 1 := Int.lt_floor_add_one x
  split_ifs with ha hb hc <;> push_cast <;> linarith

theorem int_le_rndInt {m : ℤ} {x : ℚ} (h : (m : ℚ) ≤ x) : m ≤ rndInt x := by
  have h1 := rndInt_ge x
  have h2 : (m : ℚ) - 1 < (rndInt x : ℚ) := by linarith
  have h3 : m - 1 < rndInt x := by exact_mod_cast h2
  omega

theorem rndInt_le_int {m : ℤ} {x : ℚ} (h : x ≤ (m : ℚ)) : rndInt x ≤ m := by
  have h1 := rndInt_le x
  have h2 : (rndInt x : ℚ) < (m : ℚ) + 1 := by linarith
  have h3 : rndInt x < m + 1 := by exact_mod_cast h2
  omega

theorem le_pyRound (n : ℕ) (m : ℤ) (x : ℚ) (h : (m : ℚ) / 10 ^ n ≤ x) :
    (m : ℚ) / 10 ^ n ≤ pyRound n x := by
  have hp : (0 : ℚ) < 10 ^ n := by positivity
  have h1 : (m : ℚ) ≤ x * 10 ^ n := by
    rw [div_le_iff hp] at h; exact h
  have h2 : (m : ℚ) ≤ (rndInt (x * 10 ^ n) : ℚ) := by
    exact_mod_cast int_le_rndInt h1
  unfold pyRound
  exact div_le_div_of_nonneg_right h2 hp.le

theorem pyRound_le (n : ℕ) (m : ℤ) (x : ℚ) (h : x ≤ (m : ℚ) / 10 ^ n) :
    pyRound n x ≤ (m : ℚ) / 10 ^ n := by
  have hp : (0 : ℚ) < 10 ^ n := by positivity
  have h1 : x * 10 ^ n ≤ (m : ℚ) := by
    rw [le_div_iff hp] at h; exact h
  have h2 : (rndInt (x * 10 ^ n) : ℚ) ≤ (m : ℚ) := by
    exact_mod_cast rndInt_le_int h1
  unfold pyRound
  exact div_le_div_of_nonneg_right h2 hp.le

theorem pyRound_nonneg (n : ℕ) (x : ℚ) (h : 0 ≤ x) : 0 ≤ pyRound n x := by
  have := le_pyRound n 0 x (by simpa using h)
  simpa using this

/-! ### Dict model: association lists with Python-dict semantics -/

/-- Dict lookup (`d.get(k)` / `k in d`). -/
def dget {α : Type} (k : String) : List (String × α) → Option α
  | [] => none
  | (q, v) :: t => if q = k then some v else dget k t

/-- Dict assignment (`d[k] = v`): replaces an existing binding in place,
otherwise appends a new one. -/
def dset {α : Type} (k : String) (v : α) : List (String × α) → List (String × α)
  | [] => [(k, v)]
  | (q, w) :: t => if q = k then (k, v) :: t else (q, w) :: dset k v t

/-- Dict removal (`d.pop(k)` / `del d[k]`). -/
def dpop {α : Type} (k : String) : List (String × α) → List (String × α)
  | [] => []
  | (q, w) :: t => if q = k then t else (q, w) :: dpop k t

/-- Sum of a dict's values (`sum(d.values())`). -/
def dsum (l : List (String × ℚ)) : ℚ := (l.map Prod.snd).sum

theorem dget_mem {α : Type} {k : String} {v : α} :
    ∀ {l : List (String × α)}, dget k l = some v → (k, v) ∈ l := by
  intro l
  induction l with
  | nil => intro h; simp [dget] at h
  | cons hd t ih =>
    intro h
    obtain ⟨q, w⟩ := hd
    simp only [dget] at h
    split_ifs at h with hq
    · obtain rfl : w = v := Option.some.inj h
      obtain rfl : q = k := hq
      exact List.mem_cons_self _ _
    · exact List.mem_cons_of_mem _ (ih h)

theorem mem_dset {α : Type} {k : String} {v : α} {kv : String × α} :
    ∀ {l : List (String × α)}, kv ∈ dset k v l → kv = (k, v) ∨ kv ∈ l := by
  intro l
  induction l with
  | nil => intro h; simp [dset] at h; left; exact h
  | cons hd t ih =>
    intro h
    obtain ⟨q, w⟩ := hd
    simp only [dset] at h
    by_cases hq : q = k
    · rw [if_pos hq] at h
      rcases List.mem_cons.mp h with h1 | h1
      · left; exact h1
      · right; exact List.mem_cons_of_mem _ h1
    · rw [if_neg hq] at h
      rcases List.mem_cons.mp h with h1 | h1
      · right; exact h1 ▸ List.mem_cons_self _ _
      · rcases ih h1 with h2 | h2
        · left; exact h2
        · right; exact List.mem_cons_of_mem _ h2

theorem mem_dpop {α : Type} {k : String} {kv : String × α} :
    ∀ {l : List (String × α)}, kv ∈ dpop k l → kv ∈ l := by
  intro l
  induction l with
  | nil => intro h; simp [dpop] at h
  | cons hd t ih =>
    intro h
    obtain ⟨q, w⟩ := hd
    simp only [dpop] at h
    by_cases hq : q = k
    · rw [if_pos hq] at h
      exact List.mem_cons_of_mem _ h
    · rw [if_neg hq] at h
      rcases List.mem_cons.mp h with h1 | h1
      · exact h1 ▸ List.mem_cons_self _ _
      · exact List.mem_cons_of_mem _ (ih h1)

theorem dget_dset_self {α : Type} (k : String) (v : α) :
    ∀ (l : List (String × α)), dget k (dset k v l) = some v := by
  intro l
  induction l with
  | nil => simp [dset, dget]
  | cons hd t ih =>
    obtain ⟨q, w⟩ := hd
    by_cases hq : q = k
    · simp [dset, dget, hq]
    · simp [dset, dget, hq, ih]

theorem dpop_dset_fresh {α : Type} (k : String) (v : α) :
    ∀ (l : List (String × α)), dget k l = none → dpop k (dset k v l) = l := by
  intro l
  induction l with
  | nil => intro _; simp [dset, dpop]
  | cons hd t ih =>
    intro h
    obtain ⟨q, w⟩ := hd
    simp only [dget] at h
    by_cases hq : q = k
    · rw [if_pos hq] at h; cases h
    · rw [if_neg hq] at h
      simp [dset, dpop, hq, ih h]

theorem dget_eq_none_of_not_mem_keys {α : Type} {k : String} :
    ∀ {l : List (String × α)}, k ∉ l.map Prod.fst → dget k l = none := by
  intro l
  induction l with
  | nil => intro _; rfl
  | cons hd t ih =>
    intro h
    obtain ⟨q, w⟩ := hd
    simp only [List.map_cons, List.mem_cons] at h
    push_neg at h
    have hqk : ¬ q = k := fun hh => h.1 hh.symm
    simp [dget, hqk, ih h.2]

theorem dget_dpop_self {α : Type} {k : String} :
    ∀ {l : List (String × α)}, (l.map Prod.fst).Nodup → dget k (dpop k l) = none := by
  intro l
  induction l with
  | nil => intro _; rfl
  | cons hd t ih =>
    intro h
    obtain ⟨q, w⟩ := hd
    simp only [List.map_cons, List.nodup_cons] at h
    by_cases hq : q = k
    · subst hq
      simp only [dpop, if_pos rfl]
      exact dget_eq_none_of_not_mem_keys h.1
    · simp [dpop, dget, hq, ih h.2]

theorem dsum_dpop {k : String} {a : ℚ} :
    ∀ {l : List (String × ℚ)}, dget k l = some a → dsum (dpop k l) = dsum l - a := by
  intro l
  induction l with
  | nil => intro h; simp [dget] at h
  | cons hd t ih =>
    intro h
    obtain ⟨q, w⟩ := hd
    simp only [dget] at h
    by_cases hq : q = k
    · rw [if_pos hq] at h
      cases h
      simp [dpop, hq, dsum]
    · rw [if_neg hq] at h
      simp only [dpop, if_neg hq]
      have := ih h
      simp only [dsum, List.map_cons, List.sum_cons] at this ⊢
      rw [this]; ring

/-! ### Paper ledger (`agent/bot/execution/paper_ledger.py`) -/

/-- An entry of `PaperLedger.positions`: `{"qty": .., "avg_price": .., "opened_at": ..}`. -/
structure Position where
  qty : ℚ
  avg_price : ℚ
  opened_at : ℚ
deriving DecidableEq

/-- An entry of `PaperLedger.closed_positions`. -/
structure ClosedPosition where
  token_id : String
  qty : ℚ
  avg_buy_price : ℚ
  sell_price : ℚ
  pnl : ℚ
  closed_at : ℚ
deriving DecidableEq

/-- The in-memory state of a `PaperLedger`. -/
structure Ledger where
  cash : ℚ
  positions : List (String × Position)
  closed_positions : List ClosedPosition
  total_pnl : ℚ
  reserved : List (String × ℚ)
deriving DecidableEq

/-- `PaperLedger.reserve_cash(amount, order_id)`: returns `False` without
mutating when `amount > cash`, otherwise moves `amount` out of cash into the
reservation dict. -/
def reserveCash (L : Ledger) (amount : ℚ) (order_id : String) : Bool × Ledger :=
  if amount > L.cash then (false, L)
  else (true, { L with cash := L.cash - amount,
                       reserved := dset order_id amount L.reserved })

/-- `PaperLedger.release_reserved_cash(order_id)`: pops the reservation and
returns its amount; cash is NOT restored (the caller decides).  The guard
`if not order_id or order_id not in self._reserved: return 0.0` is falsy both
for `None` and for the empty string, so both return 0 without popping. -/
def releaseReservedCash (L : Ledger) (order_id : Option String) : ℚ × Ledger :=
  match order_id with
  | none => (0, L)
  | some oid =>
    if oid = "" then (0, L)
    else
      match dget oid L.reserved with
      | none => (0, L)
      | some amount => (amount, { L with reserved := dpop oid L.reserved })

/-- `PaperLedger.cancel_reserved(order_id)`: releases the reservation and, when
the released amount is positive, adds it back to cash. -/
def cancelReserved (L : Ledger) (order_id : String) : ℚ × Ledger :=
  let r := releaseReservedCash L (some order_id)
  if r.1 > 0 then (r.1, { r.2 with cash := r.2.cash + r.1 }) else r

/-- `PaperLedger.add_position(token_id, qty, price)`: weighted-average merge
into an existing position, or creation of a new one.  Faithful to the source:
despite the comment in the Python body, no cash is deducted here. -/
def addPosition (L : Ledger) (token_id : String) (qty price now : ℚ) : Ledger :=
  match dget token_id L.positions with
  | some pos =>
    let new_qty := pos.qty + qty
    let new_avg := if new_qty > 0 then ((pos.qty * pos.avg_price) + (qty * price)) / new_qty
                   else price
    let pos1 := { pos with qty := new_qty, avg_price := pyRound 6 new_avg }
    { L with positions := dset token_id pos1 L.positions }
  | none =>
    { L with positions := dset token_id (Position.mk qty (pyRound 6 price) now) L.positions }

/-- `PaperLedger.reduce_position(token_id, qty, price)`: returns the realized
pnl (rounded to 4 digits) and the next ledger state, or `none` with the state
untouched when no position exists. -/
def reducePosition (L : Ledger) (token_id : String) (qty price now : ℚ) :
    Option ℚ × Ledger :=
  match dget token_id L.positions with
  | none => (none, L)
  | some pos =>
    let q := min qty pos.qty
    let pnl := (price - pos.avg_price) * q
    let new_qty := pos.qty - q
    let rec_ := [ClosedPosition.mk token_id pos.qty pos.avg_price price (pyRound 4 pnl) now]
    let pos1 := { pos with qty := pyRound 6 new_qty }
    let L1 :=
      if new_qty ≤ 1/1000 then
        { L with positions := dpop token_id L.positions,
                 closed_positions := L.closed_positions ++ rec_ }
      else
        { L with positions := dset token_id pos1 L.positions }
    (some (pyRound 4 pnl),
     { L1 with cash := L1.cash + q * price, total_pnl := L1.total_pnl + pnl })

/-! ### Order tracker (`agent/bot/execution/order_tracker.py`) -/

/-- A `TrackedOrder` (the fields the paper fill logic reads and writes;
statuses are the string values of the `OrderStatus` enum). -/
structure TrackedOrder where
  order_id : String
  token_id : String
  side : String
  limit_price : ℚ
  qty : ℚ
  mode : String
  placed_at : ℚ
  status : String
  filled_at : Option ℚ
  filled_price : Option ℚ
deriving DecidableEq

/-- A `FillResult` emitted by the fill check. -/
structure FillResult where
  order_id : String
  token_id : String
  side : String
  filled_price : ℚ
  qty : ℚ
  pnl : Option ℚ
deriving DecidableEq

/-- The body of the `check_fills_paper` loop for one open paper order:
skip when no positive price is available; then the timeout test; then the
limit-price fill test. -/
def checkOrderPaper (prices : String → Option ℚ) (now max_order_age_s : ℚ)
    (o : TrackedOrder) : TrackedOrder × Option FillResult :=
  match prices o.token_id with
  | none => (o, none)
  | some p =>
    if p ≤ 0 then (o, none)
    else if now - o.placed_at > max_order_age_s then
      ({ o with status := "expired" }, none)
    else if (o.side = "buy" ∧ p ≤ o.limit_price) ∨ (o.side = "sell" ∧ p ≥ o.limit_price) then
      ({ o with status := "filled", filled_at := some now, filled_price := some p },
       some (FillResult.mk o.order_id o.token_id o.side p o.qty none))
    else (o, none)

/-- One iteration of `check_fills_paper` over an arbitrary tracked order:
the loop only visits orders that are `open` (`get_open_orders`) and skips
non-paper ones. -/
def stepOrder (prices : String → Option ℚ) (now max_order_age_s : ℚ)
    (o : TrackedOrder) : TrackedOrder × Option FillResult :=
  if o.status = "open" ∧ o.mode = "paper" then checkOrderPaper prices now max_order_age_s o
  else (o, none)

/-- `OrderTracker.check_fills_paper(current_prices, max_order_age_s)`:
updates every order and collects the fills of this call, in order. -/
def checkFillsPaper (prices : String → Option ℚ) (now max_order_age_s : ℚ)
    (orders : List TrackedOrder) : List TrackedOrder × List FillResult :=
  (orders.map (fun o => (stepOrder prices now max_order_age_s o).1),
   orders.filterMap (fun o => (stepOrder prices now max_order_age_s o).2))

/-! ### Paper execution (`agent/bot/execution/paper_exec.py`) -/

/-- Combined tracker + ledger state that `paper_exec` operates on. -/
structure SysState where
  orders : List TrackedOrder
  ledger : Ledger
deriving DecidableEq

/-- `paper_exec._execute_fill`: the effect of a fill on the ledger. -/
def executeFill (L : Ledger) (token_id side : String) (price qty now : ℚ) : Ledger :=
  if side = "buy" then addPosition L token_id qty price now
  else
    match dget token_id L.positions with
    | none => L
    | some pos => (reducePosition L token_id (min qty pos.qty) price now).2

/-- One iteration of the `process_fills` loop: for a buy fill the reservation
is released (without refund) before `_execute_fill` runs. -/
def applyFill (L : Ledger) (f : FillResult) (now : ℚ) : Ledger :=
  let L1 := if f.side = "buy" then (releaseReservedCash L (some f.order_id)).2 else L
  executeFill L1 f.token_id f.side f.filled_price f.qty now

/-- `paper_exec.process_fills(current_prices)`: run the fill check, then apply
every emitted fill to the ledger. -/
def processFills (prices : String → Option ℚ) (now max_order_age_s : ℚ)
    (st : SysState) : SysState × List FillResult :=
  let r := checkFillsPaper prices now max_order_age_s st.orders
  (SysState.mk r.1 (r.2.foldl (fun L f => applyFill L f now) st.ledger), r.2)

/-- Iterated `process_fills` over a list of (prices, now, max-age) ticks. -/
def processFillsMany (steps : List ((String → Option ℚ) × ℚ × ℚ)) (st : SysState) : SysState :=
  steps.foldl (fun s stp => (processFills stp.1 stp.2.1 stp.2.2 s).1) st

/-- `OrderTracker.get_order(order_id)`. -/
def findOrder (orders : List TrackedOrder) (oid : String) : Option TrackedOrder :=
  orders.find? (fun o => o.order_id = oid)

/-- Mark the tracked order with the given id with a new status. -/
def setOrderStatus (orders : List TrackedOrder) (oid s : String) : List TrackedOrder :=
  orders.map (fun o => if o.order_id = oid then { o with status := s } else o)

/-- `paper_exec.cancel_order(order_id)`: mark the order cancelled and, for a
buy, release its reservation via `release_reserved_cash` (no cash refund).
Returns whether an order was found. -/
def cancelOrder (st : SysState) (oid : String) : SysState × Bool :=
  match findOrder st.orders oid with
  | none => (st, false)
  | some o =>
    (SysState.mk (setOrderStatus st.orders oid "cancelled")
       (if o.side = "buy" then (releaseReservedCash st.ledger (some oid)).2 else st.ledger),
     true)

/-! ### Kelly sizing (`agent/bot/risk/kelly_criterion.py`) -/

/-- The configured fields of `KellyCriterion` (read from env in `__init__`). -/
structure KellyConfig where
  kelly_fraction : ℚ
  min_position_size : ℚ
  max_position_size : ℚ
deriving DecidableEq

/-- The env defaults: `KELLY_FRACTION=0.25`, `MIN_POSITION_SIZE_USD=5.0`,
`MAX_POSITION_SIZE_USD=100.0`. -/
def defaultKellyConfig : KellyConfig := KellyConfig.mk (1/4) 5 100

/-- `KellyCriterion.calculate_position_size`. -/
def calculatePositionSize (cfg : KellyConfig)
    (win_rate avg_win avg_loss portfolio_value : ℚ) : ℚ :=
  if win_rate ≤ 0 ∨ win_rate ≥ 1 then cfg.min_position_size
  else if avg_loss ≤ 0 ∨ avg_win ≤ 0 then cfg.min_position_size
  else
    let b := avg_win / avg_loss
    let kelly_pct := (b * win_rate - (1 - win_rate)) / b
    if kelly_pct ≤ 0 then 0
    else
      let adjusted_kelly := min (kelly_pct * cfg.kelly_fraction) (1/2)
      let position_size := portfolio_value * adjusted_kelly
      pyRound 2 (min cfg.max_position_size (max cfg.min_position_size position_size))

/-! ### Circuit breaker (`agent/bot/risk/circuit_breaker.py`) -/

/-- The breaker's durable state: the `circuit_breaker:state`,
`circuit_breaker:reason` and `circuit_breaker:tripped_at` keys. -/
structure CBState where
  state : String
  reason : Option String
  tripped_at : Option ℚ
deriving DecidableEq

/-- `CircuitBreaker.get_state`: anything other than the three known states
reads as `closed`. -/
def CBState.getState (s : CBState) : String :=
  if s.state = "closed" ∨ s.state = "open" ∨ s.state = "half_open" then s.state else "closed"

/-- `CircuitBreaker.is_open`. -/
def CBState.isOpen (s : CBState) : Bool := s.getState == "open"

/-- `CircuitBreaker.trip(reason)`: no-op when already open, otherwise records
state, reason and trip timestamp. -/
def trip (s : CBState) (reason : String) (now : ℚ) : CBState :=
  if s.isOpen then s
  else CBState.mk "open" (some reason) (some now)

/-- `CircuitBreaker.reset()`: the state it leaves behind. -/
def cbReset : CBState := CBState.mk "closed" none none

/-- `CircuitBreaker.auto_reset_check()`: resets when open, a trip timestamp
exists, and the elapsed time reaches the cooldown; returns whether it reset. -/
def autoResetCheck (s : CBState) (now cooldown : ℚ) : CBState × Bool :=
  if s.isOpen = false then (s, false)
  else
    match s.tripped_at with
    | none => (s, false)
    | some t => if now - t ≥ cooldown then (cbReset, true) else (s, false)

/-! ### Ledger invariants -/

/-- A sequence element for exercising the ledger's position operations. -/
inductive LedgerOp where
  | add (token_id : String) (qty price now : ℚ)
  | reduce (token_id : String) (qty price now : ℚ)

/-- Run one position operation on the ledger. -/
def applyOp (L : Ledger) : LedgerOp → Ledger
  | LedgerOp.add t q p n => addPosition L t q p n
  | LedgerOp.reduce t q p n => (reducePosition L t q p n).2

/-- Run a sequence of position operations on the ledger. -/
def applyOps (L : Ledger) (ops : List LedgerOp) : Ledger := ops.foldl applyOp L

/-- An operation carrying non-negative quantity and price (every caller in
`paper_exec.py` validates `qty > 0` and `0.01 ≤ price ≤ 0.99`). -/
def LedgerOp.valid : LedgerOp → Prop
  | LedgerOp.add _ q p _ => 0 ≤ q ∧ 0 ≤ p
  | LedgerOp.reduce _ q p _ => 0 ≤ q ∧ 0 ≤ p

instance (op : LedgerOp) : Decidable op.valid :=
  match op with
  | LedgerOp.add _ q p _ => inferInstanceAs (Decidable (0 ≤ q ∧ 0 ≤ p))
  | LedgerOp.reduce _ q p _ => inferInstanceAs (Decidable (0 ≤ q ∧ 0 ≤ p))

/-- Valid ledger state: non-negative cash, reservations and position
quantities. -/
def Ledger.validState (L : Ledger) : Prop :=
  0 ≤ L.cash ∧ (∀ kv ∈ L.reserved, 0 ≤ kv.2) ∧ (∀ kv ∈ L.positions, 0 ≤ kv.2.qty)

instance (L : Ledger) : Decidable L.validState :=
  inferInstanceAs (Decidable (0 ≤ L.cash ∧ (∀ kv ∈ L.reserved, 0 ≤ kv.2) ∧
    (∀ kv ∈ L.positions, 0 ≤ kv.2.qty)))

theorem addPosition_validState (L : Ledger) (t : String) (q p n : ℚ)
    (hq : 0 ≤ q) (hp : 0 ≤ p) (h : L.validState) : (addPosition L t q p n).validState := by
  obtain ⟨hc, hr, hpos⟩ := h
  unfold addPosition
  cases hdg : dget t L.positions with
  | none =>
    refine ⟨hc, hr, ?_⟩
    intro kv hkv
    rcases mem_dset hkv with h1 | h1
    · subst h1; exact hq
    · exact hpos kv h1
  | some pos =>
    refine ⟨hc, hr, ?_⟩
    intro kv hkv
    rcases mem_dset hkv with h1 | h1
    · subst h1
      exact add_nonneg (hpos (t, pos) (dget_mem hdg)) hq
    · exact hpos kv h1

theorem reducePosition_validState (L : Ledger) (t : String) (q p n : ℚ)
    (hq : 0 ≤ q) (hp : 0 ≤ p) (h : L.validState) :
    ((reducePosition L t q p n).2).validState := by
  obtain ⟨hc, hr, hpos⟩ := h
  unfold reducePosition
  cases hdg : dget t L.positions with
  | none => exact ⟨hc, hr, hpos⟩
  | some pos =>
    have hposq : 0 ≤ pos.qty := hpos (t, pos) (dget_mem hdg)
    have hqmin : 0 ≤ min q pos.qty := le_min hq hposq
    have hcash : 0 ≤ L.cash + min q pos.qty * p := add_nonneg hc (mul_nonneg hqmin hp)
    dsimp only
    split_ifs with hdust
    · refine ⟨hcash, hr, ?_⟩
      intro kv hkv
      exact hpos kv (mem_dpop hkv)
    · refine ⟨hcash, hr, ?_⟩
      intro kv hkv
      rcases mem_dset hkv with h1 | h1
      · subst h1
        exact pyRound_nonneg 6 _ (sub_nonneg.mpr (min_le_right q pos.qty))
      · exact hpos kv h1

theorem applyOp_validState (L : Ledger) (op : LedgerOp)
    (hop : op.valid) (h : L.validState) : (applyOp L op).validState := by
  cases op with
  | add t q p n => exact addPosition_validState L t q p n hop.1 hop.2 h
  | reduce t q p n => exact reducePosition_validState L t q p n hop.1 hop.2 h

theorem applyOps_validState (ops : List LedgerOp) :
    ∀ L : Ledger, L.validState → (∀ op ∈ ops, op.valid) → (applyOps L ops).validState := by
  induction ops with
  | nil => intro L h _; exact h
  | cons op t ih =>
    intro L h hops
    have h1 := applyOp_validState L op (hops op (List.mem_cons_self _ _)) h
    exact ih _ h1 (fun o ho => hops o (List.mem_cons_of_mem _ ho))

/-! ### Claim theorems -/

/-- The initial paper ledger of the C1/C3 examples: cash 100, no positions. -/
def c1Ledger : Ledger := Ledger.mk 100 [] [] 0 []

/-- C1: `add_position` performs the weighted-average merge the claim states
(10 @ 0.50 then 10 @ 0.60 gives qty 20 at avg 0.55), but it does NOT
decrement cash: after the first buy cash is still 100, not 100 − 10·0.50 = 95.
This evaluates the code at the claim's own example. -/
theorem C1_addPosition_cash_not_deducted :
    (addPosition c1Ledger "tok" 10 (1/2) 0).cash = 100 ∧
    dget "tok" (addPosition c1Ledger "tok" 10 (1/2) 0).positions =
      some (Position.mk 10 (1/2) 0) ∧
    (addPosition (addPosition c1Ledger "tok" 10 (1/2) 0) "tok" 10 (3/5) 1).cash = 100 ∧
    dget "tok" (addPosition (addPosition c1Ledger "tok" 10 (1/2) 0) "tok" 10 (3/5) 1).positions =
      some (Position.mk 20 (11/20) 0) ∧
    (addPosition c1Ledger "tok" 10 (1/2) 0).cash ≠ c1Ledger.cash - 10 * (1/2) := by
  norm_num [addPosition, c1Ledger, dget, dset, pyRound, rndInt]

/-- C2: starting from a valid state (non-negative cash, reservations and
position quantities), every sequence of `add_position` / `reduce_position`
calls with non-negative quantity and price keeps the state valid at every
intermediate point: position quantities, cash and reservations never go
negative. -/
theorem C2_ledger_invariant (L : Ledger) (ops : List LedgerOp)
    (hL : L.validState) (hops : ∀ op ∈ ops, op.valid) :
    ∀ pre suf : List LedgerOp, ops = pre ++ suf → (applyOps L pre).validState := by
  intro pre suf heq
  subst heq
  exact applyOps_validState pre L hL (fun op hop => hops op (List.mem_append_left _ hop))

/-- A concrete operation sequence exercising merge, partial sell and close. -/
def c2Ops : List LedgerOp :=
  [LedgerOp.add "a" 10 (1/2) 0, LedgerOp.reduce "a" 4 (3/5) 1,
   LedgerOp.add "b" 2 (1/4) 2, LedgerOp.reduce "a" 100 (1/2) 3]

theorem C2_ledger_invariant_witness : (applyOps c1Ledger c2Ops).validState :=
  C2_ledger_invariant c1Ledger c2Ops (by norm_num [c1Ledger, Ledger.validState])
    (by norm_num [c2Ops, LedgerOp.valid]) c2Ops [] (by simp)

/-- A ledger holding one unit bought at 0.10, for the C3 counterexample. -/
def c3Ledger : Ledger := Ledger.mk 0 [("tok", Position.mk 1 (1/10) 0)] [] 0 []

/-- C3 counterexample: selling 1 unit at 0.323456 against avg price 0.10 has
exact pnl 0.223456; `reduce_position` returns 0.2235 — `round(pnl, 4)` — not
the exact `(price − avgPrice) * clamped_qty` the claim states. -/
theorem C3_counterexample :
    (reducePosition c3Ledger "tok" 1 (323456/1000000) 0).1 = some (2235/10000) ∧
    (2235/10000 : ℚ) ≠ (323456/1000000 - 1/10) * min 1 (1 : ℚ) := by
  norm_num [reducePosition, c3Ledger, dget, pyRound, rndInt]

/-- C3 (amended: the pnl is returned rounded to 4 decimal places, Python's
`round(pnl, 4)`; the unrounded pnl is what is accumulated): `reduce_position`
returns `none` and mutates nothing when no position exists; otherwise it
clamps the quantity to the held quantity, returns the rounded pnl, increments
cash by `clamped_qty * price`, accumulates the exact pnl, and at or below the
dust threshold removes the position and appends a closed-position record. -/
theorem C3_reducePosition_spec (L : Ledger) (tok : String) (qty price now : ℚ)
    (hnd : (L.positions.map Prod.fst).Nodup) :
    (dget tok L.positions = none → reducePosition L tok qty price now = (none, L)) ∧
    (∀ pos : Position, dget tok L.positions = some pos →
      (reducePosition L tok qty price now).1 =
        some (pyRound 4 ((price - pos.avg_price) * min qty pos.qty)) ∧
      (reducePosition L tok qty price now).2.cash = L.cash + min qty pos.qty * price ∧
      (reducePosition L tok qty price now).2.total_pnl =
        L.total_pnl + (price - pos.avg_price) * min qty pos.qty ∧
      (pos.qty - min qty pos.qty ≤ 1/1000 →
        dget tok (reducePosition L tok qty price now).2.positions = none ∧
        (reducePosition L tok qty price now).2.closed_positions =
          L.closed_positions ++ [ClosedPosition.mk tok pos.qty pos.avg_price price
            (pyRound 4 ((price - pos.avg_price) * min qty pos.qty)) now])) := by
  constructor
  · intro h
    unfold reducePosition
    rw [h]
  · intro pos h
    unfold reducePosition
    rw [h]
    dsimp only
    by_cases hdust : pos.qty - min qty pos.qty ≤ 1/1000
    · rw [if_pos hdust]
      exact ⟨rfl, rfl, rfl, fun _ => ⟨dget_dpop_self hnd, rfl⟩⟩
    · rw [if_neg hdust]
      exact ⟨rfl, rfl, rfl, fun hc => absurd hc hdust⟩

/-- The ledger of the spec's own sell example: qty 10 at avg price 0.50. -/
def c3wLedger : Ledger := Ledger.mk 0 [("tok", Position.mk 10 (1/2) 0)] [] 0 []

theorem C3_reducePosition_witness :
    (reducePosition c3wLedger "tok" 10 (3/5) 7).1 =
      some (pyRound 4 ((3/5 - 1/2) * min 10 10)) ∧
    (reducePosition c3wLedger "tok" 10 (3/5) 7).2.cash =
      c3wLedger.cash + min 10 10 * (3/5) ∧
    (reducePosition c3wLedger "tok" 10 (3/5) 7).2.total_pnl =
      c3wLedger.total_pnl + (3/5 - 1/2) * min 10 10 ∧
    ((10 : ℚ) - min 10 10 ≤ 1/1000 →
      dget "tok" (reducePosition c3wLedger "tok" 10 (3/5) 7).2.positions = none ∧
      (reducePosition c3wLedger "tok" 10 (3/5) 7).2.closed_positions =
        c3wLedger.closed_positions ++ [ClosedPosition.mk "tok" 10 (1/2) (3/5)
          (pyRound 4 ((3/5 - 1/2) * min 10 10)) 7]) :=
  (C3_reducePosition_spec c3wLedger "tok" 10 (3/5) 7 (by simp [c3wLedger])).2
    (Position.mk 10 (1/2) 0) (by norm_num [c3wLedger, dget])

/-- C4 counterexample: with the default configuration (min 5, max 100), the
inputs win_rate 0.3, avg_win 1, avg_loss 1 have a negative Kelly fraction, and
the returned size 0 lies outside the configured `[min, max]` bounds. -/
theorem C4_counterexample :
    calculatePositionSize defaultKellyConfig (3/10) 1 1 1000 = 0 ∧
    ¬ (defaultKellyConfig.min_position_size ≤
        calculatePositionSize defaultKellyConfig (3/10) 1 1 1000) := by
  norm_num [calculatePositionSize, defaultKellyConfig]

/-- C4 (amended: the no-edge result 0 is exempt from the `[min, max]`
clamp): a negative computed Kelly fraction yields 0, and every result is
either 0 or within the configured bounds (bounds taken 2-decimal, as the
result is rounded to cents). -/
theorem C4_kelly_bounds (cfg : KellyConfig) (mi ma : ℤ)
    (hmi : cfg.min_position_size = (mi : ℚ) / 10 ^ 2)
    (hma : cfg.max_position_size = (ma : ℚ) / 10 ^ 2)
    (hmm : cfg.min_position_size ≤ cfg.max_position_size)
    (w aw al pv : ℚ) :
    ((0 < w ∧ w < 1 ∧ 0 < aw ∧ 0 < al ∧ (aw / al * w - (1 - w)) / (aw / al) < 0) →
       calculatePositionSize cfg w aw al pv = 0) ∧
    (calculatePositionSize cfg w aw al pv = 0 ∨
      (cfg.min_position_size ≤ calculatePositionSize cfg w aw al pv ∧
       calculatePositionSize cfg w aw al pv ≤ cfg.max_position_size)) := by
  constructor
  · rintro ⟨hw0, hw1, haw, hal, hneg⟩
    unfold calculatePositionSize
    have h1 : ¬ (w ≤ 0 ∨ w ≥ 1) := by push_neg; exact ⟨hw0, hw1⟩
    have h2 : ¬ (al ≤ 0 ∨ aw ≤ 0) := by push_neg; exact ⟨hal, haw⟩
    rw [if_neg h1, if_neg h2]
    dsimp only
    rw [if_pos hneg.le]
  · unfold calculatePositionSize
    by_cases h1 : w ≤ 0 ∨ w ≥ 1
    · rw [if_pos h1]; exact Or.inr ⟨le_refl _, hmm⟩
    · rw [if_neg h1]
      by_cases h2 : al ≤ 0 ∨ aw ≤ 0
      · rw [if_pos h2]; exact Or.inr ⟨le_refl _, hmm⟩
      · rw [if_neg h2]
        dsimp only
        by_cases h3 : (aw / al * w - (1 - w)) / (aw / al) ≤ 0
        · rw [if_pos h3]; exact Or.inl rfl
        · rw [if_neg h3]
          refine Or.inr ⟨?_, ?_⟩
          · rw [hmi]
            refine le_pyRound 2 mi _ ?_
            rw [← hmi]
            exact le_min hmm (le_max_left _ _)
          · rw [hma]
            refine pyRound_le 2 ma _ ?_
            rw [← hma]
            exact min_le_left _ _

theorem C4_kelly_bounds_witness :
    (((0 : ℚ) < 6/10 ∧ (6/10 : ℚ) < 1 ∧ (0 : ℚ) < 2 ∧ (0 : ℚ) < 1 ∧
        ((2 : ℚ) / 1 * (6/10) - (1 - 6/10)) / (2 / 1) < 0) →
       calculatePositionSize defaultKellyConfig (6/10) 2 1 500 = 0) ∧
    (calculatePositionSize defaultKellyConfig (6/10) 2 1 500 = 0 ∨
      (defaultKellyConfig.min_position_size ≤
        calculatePositionSize defaultKellyConfig (6/10) 2 1 500 ∧
       calculatePositionSize defaultKellyConfig (6/10) 2 1 500 ≤
        defaultKellyConfig.max_position_size)) :=
  C4_kelly_bounds defaultKellyConfig 500 10000 (by norm_num [defaultKellyConfig])
    (by norm_num [defaultKellyConfig]) (by norm_num [defaultKellyConfig]) (6/10) 2 1 500

/-- The C5/C6 example order: an open paper GTC buy at limit 0.50 placed at 0. -/
def c5Order : TrackedOrder :=
  TrackedOrder.mk "o1" "tok" "buy" (1/2) 10 "paper" 0 "open" none none

/-- C5 counterexample: an open paper order aged 400s past a 300s bound whose
instrument has NO current price is not transitioned to expired —
`check_fills_paper` skips it before the age check and leaves it `open`. -/
theorem C5_counterexample :
    (400 : ℚ) - c5Order.placed_at > 300 ∧
    (checkFillsPaper (fun _ => none) 400 300 [c5Order]).1 = [c5Order] ∧
    c5Order.status = "open" := by
  refine ⟨by norm_num [c5Order], ?_, rfl⟩
  simp [checkFillsPaper, stepOrder, checkOrderPaper, c5Order]

/-- C5 (amended: an order with no available positive price is held pending
unconditionally — the no-price skip precedes the age check, so even an order
past the max-age bound is NOT expired): in the simulated fill check, such an
order is neither filled nor marked expired, whatever its age. -/
theorem C5_no_price_held (prices : String → Option ℚ) (now maxAge : ℚ)
    (l : List TrackedOrder) (o : TrackedOrder) (hmem : o ∈ l)
    (hopen : o.status = "open") (hmode : o.mode = "paper")
    (hna : ∀ p : ℚ, prices o.token_id = some p → p ≤ 0) :
    stepOrder prices now maxAge o = (o, none) ∧
    o ∈ (checkFillsPaper prices now maxAge l).1 := by
  have hstep : stepOrder prices now maxAge o = (o, none) := by
    unfold stepOrder
    rw [if_pos ⟨hopen, hmode⟩]
    unfold checkOrderPaper
    cases hp : prices o.token_id with
    | none => rfl
    | some p =>
      dsimp only
      rw [if_pos (hna p hp)]
  refine ⟨hstep, ?_⟩
  have h2 : (stepOrder prices now maxAge o).1 ∈ (checkFillsPaper prices now maxAge l).1 :=
    List.mem_map_of_mem _ hmem
  rw [hstep] at h2
  exact h2

theorem C5_no_price_held_witness :
    stepOrder (fun _ => none) 400 300 c5Order = (c5Order, none) ∧
    c5Order ∈ (checkFillsPaper (fun _ => none) 400 300 [c5Order]).1 :=
  C5_no_price_held (fun _ => none) 400 300 [c5Order] c5Order
    (List.mem_singleton.mpr rfl) rfl rfl (fun p hp => Option.noConfusion hp)

/-- C6: for every open simulated (paper) order whose instrument has an
available positive price, `check_fills_paper` evaluates the timeout before the
fill test: past the max age the order becomes `expired` (never `filled`);
otherwise a buy fills exactly when `p ≤ limit` and a sell exactly when
`p ≥ limit`, recording fill price and time and emitting a `FillResult`. -/
theorem C6_fill_check (prices : String → Option ℚ) (now maxAge : ℚ)
    (l : List TrackedOrder) (o : TrackedOrder) (p : ℚ)
    (hmem : o ∈ l) (hopen : o.status = "open") (hmode : o.mode = "paper")
    (hp : prices o.token_id = some p) (hppos : 0 < p) :
    (stepOrder prices now maxAge o).1 ∈ (checkFillsPaper prices now maxAge l).1 ∧
    (∀ f : FillResult, (stepOrder prices now maxAge o).2 = some f →
       f ∈ (checkFillsPaper prices now maxAge l).2) ∧
    (now - o.placed_at > maxAge →
       (stepOrder prices now maxAge o).1.status = "expired" ∧
       (stepOrder prices now maxAge o).2 = none) ∧
    (¬ now - o.placed_at > maxAge →
       (o.side = "buy" →
          ((stepOrder prices now maxAge o).1.status = "filled" ↔ p ≤ o.limit_price)) ∧
       (o.side = "sell" →
          ((stepOrder prices now maxAge o).1.status = "filled" ↔ p ≥ o.limit_price)) ∧
       ((stepOrder prices now maxAge o).1.status = "filled" →
          (stepOrder prices now maxAge o).1.filled_price = some p ∧
          (stepOrder prices now maxAge o).1.filled_at = some now ∧
          (stepOrder prices now maxAge o).2 =
            some (FillResult.mk o.order_id o.token_id o.side p o.qty none))) := by
  have hmm1 : (stepOrder prices now maxAge o).1 ∈ (checkFillsPaper prices now maxAge l).1 :=
    List.mem_map_of_mem _ hmem
  have hmm2 : ∀ f : FillResult, (stepOrder prices now maxAge o).2 = some f →
      f ∈ (checkFillsPaper prices now maxAge l).2 :=
    fun f hf => List.mem_filterMap.mpr ⟨o, hmem, hf⟩
  have hbase : stepOrder prices now maxAge o = checkOrderPaper prices now maxAge o := by
    unfold stepOrder; rw [if_pos ⟨hopen, hmode⟩]
  by_cases hage : now - o.placed_at > maxAge
  · have hstep : stepOrder prices now maxAge o = ({ o with status := "expired" }, none) := by
      rw [hbase]; unfold checkOrderPaper; rw [hp]; dsimp only
      rw [if_neg (not_le.mpr hppos), if_pos hage]
    refine ⟨hmm1, hmm2, fun _ => ?_, fun hna => absurd hage hna⟩
    rw [hstep]
    exact ⟨rfl, rfl⟩
  · by_cases hfill : (o.side = "buy" ∧ p ≤ o.limit_price) ∨ (o.side = "sell" ∧ p ≥ o.limit_price)
    · have hstep : stepOrder prices now maxAge o =
          ({ o with status := "filled", filled_at := some now, filled_price := some p },
           some (FillResult.mk o.order_id o.token_id o.side p o.qty none)) := by
        rw [hbase]; unfold checkOrderPaper; rw [hp]; dsimp only
        rw [if_neg (not_le.mpr hppos), if_neg hage, if_pos hfill]
      refine ⟨hmm1, hmm2, fun h => absurd h hage, fun _ => ⟨?_, ?_, ?_⟩⟩
      · intro hbuy
        rw [hstep]
        rcases hfill with ⟨_, hle⟩ | ⟨hs, _⟩
        · exact iff_of_true rfl hle
        · rw [hbuy] at hs; exact absurd hs (by decide)
      · intro hsell
        rw [hstep]
        rcases hfill with ⟨hb, _⟩ | ⟨_, hge⟩
        · rw [hsell] at hb; exact absurd hb (by decide)
        · exact iff_of_true rfl hge
      · intro _
        rw [hstep]
        exact ⟨rfl, rfl, rfl⟩
    · have hstep : stepOrder prices now maxAge o = (o, none) := by
        rw [hbase]; unfold checkOrderPaper; rw [hp]; dsimp only
        rw [if_neg (not_le.mpr hppos), if_neg hage, if_neg hfill]
      refine ⟨hmm1, hmm2, fun h => absurd h hage, fun _ => ⟨?_, ?_, ?_⟩⟩
      · intro hbuy
        rw [hstep]
        exact iff_of_false (by simp [hopen]) (fun hle => hfill (Or.inl ⟨hbuy, hle⟩))
      · intro hsell
        rw [hstep]
        exact iff_of_false (by simp [hopen]) (fun hge => hfill (Or.inr ⟨hsell, hge⟩))
      · intro hof
        rw [hstep] at hof
        rw [hopen] at hof
        exact absurd hof (by decide)

/-- The price feed of the C6 witness: the order's token quotes at 0.49. -/
def c6prices : String → Option ℚ := fun t => if t = "tok" then some (49/100) else none

theorem C6_fill_check_witness :
    (stepOrder c6prices 100 300 c5Order).1.status = "filled" ∧
    FillResult.mk "o1" "tok" "buy" (49/100) 10 none ∈
      (checkFillsPaper c6prices 100 300 [c5Order]).2 := by
  have h := C6_fill_check c6prices 100 300 [c5Order] c5Order (49/100)
    (List.mem_singleton.mpr rfl) rfl rfl (by norm_num [c6prices, c5Order]) (by norm_num)
  refine ⟨((h.2.2.2 (by norm_num [c5Order])).1 rfl).mpr (by norm_num [c5Order]), ?_⟩
  refine h.2.1 _ ?_
  norm_num [stepOrder, checkOrderPaper, c6prices, c5Order]

/-- C7: from any ledger state with `0 ≤ amount ≤ cash` and a fresh, non-empty
order id (every id the program generates is `paper_` + 12 hex digits; an empty
id would be swallowed by `release_reserved_cash`'s falsy guard),
`reserve_cash` succeeds, and `cancel_reserved` then returns that amount,
restores cash exactly to its pre-reservation value and leaves no reservation
for the order id. -/
theorem C7_reserve_cancel_roundtrip (L : Ledger) (amount : ℚ) (oid : String)
    (hamt : 0 ≤ amount) (hle : amount ≤ L.cash) (hne : oid ≠ "")
    (hfresh : dget oid L.reserved = none) :
    (reserveCash L amount oid).1 = true ∧
    (cancelReserved (reserveCash L amount oid).2 oid).1 = amount ∧
    (cancelReserved (reserveCash L amount oid).2 oid).2.cash = L.cash ∧
    dget oid (cancelReserved (reserveCash L amount oid).2 oid).2.reserved = none := by
  have hng : ¬ amount > L.cash := not_lt.mpr hle
  have hres : reserveCash L amount oid =
      (true, { L with cash := L.cash - amount, reserved := dset oid amount L.reserved }) := by
    unfold reserveCash; rw [if_neg hng]
  rw [hres]
  dsimp only
  have hget : dget oid (dset oid amount L.reserved) = some amount :=
    dget_dset_self oid amount L.reserved
  unfold cancelReserved releaseReservedCash
  dsimp only
  rw [if_neg hne, hget]
  dsimp only
  rw [dpop_dset_fresh oid amount L.reserved hfresh]
  by_cases hpos : amount > 0
  · rw [if_pos hpos]
    exact ⟨rfl, rfl, by dsimp only; ring, hfresh⟩
  · rw [if_neg hpos]
    have h0 : amount = 0 := le_antisymm (not_lt.mp hpos) hamt
    refine ⟨rfl, rfl, ?_, hfresh⟩
    dsimp only
    rw [h0, sub_zero]

theorem C7_reserve_cancel_roundtrip_witness :
    (reserveCash c1Ledger 7 "ord1").1 = true ∧
    (cancelReserved (reserveCash c1Ledger 7 "ord1").2 "ord1").1 = 7 ∧
    (cancelReserved (reserveCash c1Ledger 7 "ord1").2 "ord1").2.cash = c1Ledger.cash ∧
    dget "ord1" (cancelReserved (reserveCash c1Ledger 7 "ord1").2 "ord1").2.reserved = none :=
  C7_reserve_cancel_roundtrip c1Ledger 7 "ord1" (by norm_num) (by norm_num [c1Ledger])
    (by decide) rfl

/-- C8: while the breaker is open, `trip` is a no-op (state, reason and trip
timestamp all unchanged); `auto_reset_check` resets to closed exactly when the
elapsed time since the trip timestamp reaches the cooldown, never before, and
returns whether a reset occurred. -/
theorem C8_breaker (s : CBState) (reason : String) (now t now2 cooldown : ℚ)
    (hopen : s.isOpen = true) (ht : s.tripped_at = some t) :
    trip s reason now = s ∧
    ((autoResetCheck s now2 cooldown).2 = true ↔ now2 - t ≥ cooldown) ∧
    ((autoResetCheck s now2 cooldown).2 = true →
       (autoResetCheck s now2 cooldown).1.getState = "closed") ∧
    ((autoResetCheck s now2 cooldown).2 = false → (autoResetCheck s now2 cooldown).1 = s) := by
  have htrip : trip s reason now = s := by
    unfold trip; rw [if_pos hopen]
  have hno : ¬ (s.isOpen = false) := by simp [hopen]
  have hARC : autoResetCheck s now2 cooldown =
      (if now2 - t ≥ cooldown then (cbReset, true) else (s, false)) := by
    unfold autoResetCheck
    rw [if_neg hno, ht]
  refine ⟨htrip, ?_⟩
  by_cases hcd : now2 - t ≥ cooldown
  · rw [hARC, if_pos hcd]
    exact ⟨iff_of_true rfl hcd, fun _ => rfl, fun hf => absurd hf (by decide)⟩
  · rw [hARC, if_neg hcd]
    exact ⟨iff_of_false (by simp) hcd, fun htr => absurd htr (by simp), fun _ => rfl⟩

/-- A tripped breaker state for the C8 witness. -/
def c8State : CBState := CBState.mk "open" (some "daily loss") (some 0)

theorem C8_breaker_witness :
    trip c8State "again" 5 = c8State ∧
    ((autoResetCheck c8State 10 3).2 = true ↔ (10 : ℚ) - 0 ≥ 3) ∧
    ((autoResetCheck c8State 10 3).2 = true →
       (autoResetCheck c8State 10 3).1.getState = "closed") ∧
    ((autoResetCheck c8State 10 3).2 = false → (autoResetCheck c8State 10 3).1 = c8State) :=
  C8_breaker c8State "again" 5 0 10 3 rfl rfl

theorem dsum_dset_fresh {k : String} {a : ℚ} :
    ∀ {l : List (String × ℚ)}, dget k l = none → dsum (dset k a l) = dsum l + a := by
  intro l
  induction l with
  | nil => intro _; simp [dset, dsum]
  | cons hd t ih =>
    intro h
    obtain ⟨q, w⟩ := hd
    simp only [dget] at h
    split_ifs at h with hq
    simp only [dset, if_neg hq, dsum, List.map_cons, List.sum_cons] at ih ⊢
    rw [ih h]; ring

theorem stepOrder_not_open (prices : String → Option ℚ) (now maxAge : ℚ)
    (o : TrackedOrder) (h : ¬ o.status = "open") :
    stepOrder prices now maxAge o = (o, none) := by
  unfold stepOrder
  rw [if_neg (fun hc => h hc.1)]

theorem checkFills_no_open (prices : String → Option ℚ) (now maxAge : ℚ) :
    ∀ l : List TrackedOrder, (∀ o ∈ l, ¬ o.status = "open") →
      checkFillsPaper prices now maxAge l = (l, []) := by
  intro l
  induction l with
  | nil => intro _; rfl
  | cons a t ih =>
    intro h
    have ha : stepOrder prices now maxAge a = (a, none) :=
      stepOrder_not_open _ _ _ _ (h a (List.mem_cons_self _ _))
    have ht := ih (fun o ho => h o (List.mem_cons_of_mem _ ho))
    unfold checkFillsPaper at ht ⊢
    simp only [List.map_cons, List.filterMap_cons, ha, Prod.mk.injEq] at ht ⊢
    exact ⟨by rw [ht.1], ht.2⟩

theorem processFills_no_open (prices : String → Option ℚ) (now maxAge : ℚ)
    (st : SysState) (h : ∀ o ∈ st.orders, ¬ o.status = "open") :
    processFills prices now maxAge st = (st, []) := by
  unfold processFills
  rw [checkFills_no_open prices now maxAge st.orders h]
  rfl

theorem processFillsMany_no_open :
    ∀ (steps : List ((String → Option ℚ) × ℚ × ℚ)) (st : SysState),
      (∀ o ∈ st.orders, ¬ o.status = "open") → processFillsMany steps st = st := by
  intro steps
  induction steps with
  | nil => intro st _; rfl
  | cons s t ih =>
    intro st h
    unfold processFillsMany
    simp only [List.foldl_cons]
    rw [processFills_no_open s.1 s.2.1 s.2.2 st h]
    exact ih st h

/-- C9: when `check_fills_paper` expires an open paper buy order, only the
order's status changes: `process_fills` leaves the ledger completely
untouched, the order's reserved cash stays in the reservation map (not
restored to available cash), and it stays there under any number of further
`process_fills` ticks, since reservations are only released for buy fills and
an expired order can never fill again. -/
theorem C9_expired_reservation (o : TrackedOrder) (L : Ledger) (p r : ℚ)
    (prices : String → Option ℚ) (now maxAge : ℚ)
    (hopen : o.status = "open") (hmode : o.mode = "paper") (hside : o.side = "buy")
    (hres : dget o.order_id L.reserved = some r)
    (hp : prices o.token_id = some p) (hppos : 0 < p)
    (hage : now - o.placed_at > maxAge) :
    (processFills prices now maxAge (SysState.mk [o] L)).1.ledger = L ∧
    (processFills prices now maxAge (SysState.mk [o] L)).1.orders =
      [{ o with status := "expired" }] ∧
    dget o.order_id (processFills prices now maxAge (SysState.mk [o] L)).1.ledger.reserved =
      some r ∧
    (∀ steps, (processFillsMany steps
        (processFills prices now maxAge (SysState.mk [o] L)).1).ledger = L) := by
  have hbase : stepOrder prices now maxAge o = checkOrderPaper prices now maxAge o := by
    unfold stepOrder; rw [if_pos ⟨hopen, hmode⟩]
  have hstep : stepOrder prices now maxAge o = ({ o with status := "expired" }, none) := by
    rw [hbase]; unfold checkOrderPaper; rw [hp]; dsimp only
    rw [if_neg (not_le.mpr hppos), if_pos hage]
  have hcf : checkFillsPaper prices now maxAge [o] = ([{ o with status := "expired" }], []) := by
    unfold checkFillsPaper
    simp only [List.map_cons, List.map_nil, List.filterMap_cons, List.filterMap_nil, hstep]
  have hpf : (processFills prices now maxAge (SysState.mk [o] L)).1 =
      SysState.mk [{ o with status := "expired" }] L := by
    unfold processFills
    dsimp only
    rw [hcf]
    rfl
  have hno : ∀ o' ∈ (SysState.mk [{ o with status := "expired" }] L).orders,
      ¬ o'.status = "open" := by
    intro o' ho'
    simp only [List.mem_singleton] at ho'
    subst ho'
    simp
  refine ⟨?_, ?_, ?_, ?_⟩
  · rw [hpf]
  · rw [hpf]
  · rw [hpf]; exact hres
  · intro steps
    rw [hpf, processFillsMany_no_open steps _ hno]

/-- The expired-order scenario of the C9 witness. -/
def c9Order : TrackedOrder :=
  TrackedOrder.mk "o9" "tok" "buy" (1/2) 10 "paper" 0 "open" none none

/-- Its ledger: 5 of the initial 100 cash reserved against the order. -/
def c9Ledger : Ledger := Ledger.mk 95 [] [] 0 [("o9", 5)]

theorem C9_expired_reservation_witness :
    (processFills c6prices 400 300 (SysState.mk [c9Order] c9Ledger)).1.ledger = c9Ledger ∧
    (processFills c6prices 400 300 (SysState.mk [c9Order] c9Ledger)).1.orders =
      [{ c9Order with status := "expired" }] ∧
    dget "o9" (processFills c6prices 400 300
      (SysState.mk [c9Order] c9Ledger)).1.ledger.reserved = some 5 ∧
    (processFillsMany [(c6prices, 500, 300)]
      (processFills c6prices 400 300 (SysState.mk [c9Order] c9Ledger)).1).ledger = c9Ledger := by
  have h := C9_expired_reservation c9Order c9Ledger (49/100) 5 c6prices 400 300
    rfl rfl rfl rfl (by norm_num [c6prices, c9Order]) (by norm_num) (by norm_num [c9Order])
  exact ⟨h.1, h.2.1, h.2.2.1, h.2.2.2 [(c6prices, 500, 300)]⟩

/-- C10: cancelling an open paper buy order (with the non-empty order id the
program always generates) goes through `release_reserved_cash`, not
`cancel_reserved`: the cancellation itself leaves available cash unchanged, so
cash is still lower than its pre-reservation value by the reserved amount, the
reservation is gone, and the total `cash + reserved` has decreased by that
amount. -/
theorem C10_cancel_no_refund (L0 : Ledger) (a : ℚ) (o : TrackedOrder)
    (hside : o.side = "buy") (hopen : o.status = "open") (hne : o.order_id ≠ "")
    (ha : 0 ≤ a) (hle : a ≤ L0.cash)
    (hfresh : dget o.order_id L0.reserved = none) :
    (cancelOrder (SysState.mk [o] (reserveCash L0 a o.order_id).2) o.order_id).1.ledger.cash =
      ((reserveCash L0 a o.order_id).2).cash ∧
    (cancelOrder (SysState.mk [o] (reserveCash L0 a o.order_id).2) o.order_id).1.ledger.cash =
      L0.cash - a ∧
    dget o.order_id (cancelOrder (SysState.mk [o] (reserveCash L0 a o.order_id).2)
      o.order_id).1.ledger.reserved = none ∧
    (cancelOrder (SysState.mk [o] (reserveCash L0 a o.order_id).2) o.order_id).1.ledger.cash +
      dsum (cancelOrder (SysState.mk [o] (reserveCash L0 a o.order_id).2)
        o.order_id).1.ledger.reserved =
      (((reserveCash L0 a o.order_id).2).cash +
        dsum ((reserveCash L0 a o.order_id).2).reserved) - a := by
  have hng : ¬ a > L0.cash := not_lt.mpr hle
  have hres : reserveCash L0 a o.order_id =
      (true, { L0 with cash := L0.cash - a, reserved := dset o.order_id a L0.reserved }) := by
    unfold reserveCash; rw [if_neg hng]
  rw [hres]
  dsimp only
  have hfind : findOrder [o] o.order_id = some o := by
    unfold findOrder
    exact List.find?_cons_of_pos _ (by simp)
  unfold cancelOrder
  dsimp only
  rw [hfind]
  dsimp only
  rw [if_pos hside]
  unfold releaseReservedCash
  dsimp only
  rw [if_neg hne, dget_dset_self]
  dsimp only
  rw [dpop_dset_fresh _ _ _ hfresh]
  refine ⟨rfl, rfl, hfresh, ?_⟩
  dsimp only
  rw [dsum_dset_fresh hfresh]
  ring

theorem C10_cancel_no_refund_witness :
    (cancelOrder (SysState.mk [c5Order] (reserveCash c1Ledger 7 "o1").2) "o1").1.ledger.cash =
      ((reserveCash c1Ledger 7 "o1").2).cash ∧
    (cancelOrder (SysState.mk [c5Order] (reserveCash c1Ledger 7 "o1").2) "o1").1.ledger.cash =
      c1Ledger.cash - 7 ∧
    dget "o1" (cancelOrder (SysState.mk [c5Order] (reserveCash c1Ledger 7 "o1").2)
      "o1").1.ledger.reserved = none ∧
    (cancelOrder (SysState.mk [c5Order] (reserveCash c1Ledger 7 "o1").2) "o1").1.ledger.cash +
      dsum (cancelOrder (SysState.mk [c5Order] (reserveCash c1Ledger 7 "o1").2)
        "o1").1.ledger.reserved =
      (((reserveCash c1Ledger 7 "o1").2).cash +
        dsum ((reserveCash c1Ledger 7 "o1").2).reserved) - 7 :=
  C10_cancel_no_refund c1Ledger 7 c5Order rfl rfl (by decide) (by norm_num)
    (by norm_num [c1Ledger]) rfl

end Poly
